import Mathlib

/-!
Verification development for the document-lifecycle core of the
anything-rag repository (rag_manager.py, query_interface.py, config.py).

The Python source is shallowly embedded: pure string/JSON manipulation
becomes Lean functions on `String` / `JVal`; the stateful orchestration
(idempotency cache, pending/processed directories, persisted cache file)
becomes explicit state passing over `SysState`; calls into the external
extraction pipeline are a parameter `pipeline : DocPath → Bool`
(`true` = the call returned, `false` = it raised); filesystem mutations of
the two document directories are additionally recorded as an `FsOp` trace
so that claims about the mechanism of the mutation (rename vs
copy-then-delete) can be stated.
-/

/-! ## Python string primitives -/

/-- Characters stripped by Python `str.strip()` with no argument. -/
def isPySpace (c : Char) : Bool :=
  c = ' ' || c = '\t' || c = '\n' || c = '\x0d' || c = '\x0b' || c = '\x0c'

/-- Python `str.strip()` on a character list. -/
def stripChars (cs : List Char) : List Char :=
  (((cs.dropWhile isPySpace).reverse).dropWhile isPySpace).reverse

/-- Python `str.strip()`. -/
def pyStrip (s : String) : String :=
  String.mk (stripChars s.data)

/-- Does `needle` occur as a contiguous substring of `hay`?  This is
Python's `needle in hay` for strings. -/
def listContainsSub [DecidableEq α] (needle hay : List α) : Bool :=
  match hay with
  | [] => needle.isEmpty
  | _ :: tl => needle.isPrefixOf hay || listContainsSub needle tl

/-- Python `needle in hay` (substring containment). -/
def pyIn (needle hay : String) : Bool :=
  listContainsSub needle.data hay.data

/-- Python `hay.endswith(needle)`. -/
def pyEndsWith (hay needle : String) : Bool :=
  needle.data.isSuffixOf hay.data

/-- Python `hay.startswith(needle)`. -/
def pyStartsWith (hay needle : String) : Bool :=
  needle.data.isPrefixOf hay.data

/-- Python slice `s[:n]` for `n ≥ 0`. -/
def pyTake (s : String) (n : Nat) : String :=
  String.mk (s.data.take n)

/-- Python slice `s[n:]` for `n ≥ 0`. -/
def pyDrop (s : String) (n : Nat) : String :=
  String.mk (s.data.drop n)

/-- Python `len(s)` (both strings here are ASCII-ranged in practice;
we count characters, matching Python's code-point count). -/
def pyLenStr (s : String) : Nat :=
  s.data.length

/-- Index of the first occurrence of `needle` in `hay`, Python
`hay.find(needle)` restricted to the found case (`none` = `-1`). -/
def listFindSub [DecidableEq α] (needle hay : List α) : Option Nat :=
  match hay with
  | [] => if needle.isEmpty then some 0 else none
  | _ :: tl =>
    if needle.isPrefixOf hay then some 0
    else (listFindSub needle tl).map (· + 1)

/-- Python `hay.find(needle)` (as an `Option`). -/
def pyFind (hay needle : String) : Option Nat :=
  listFindSub needle.data hay.data

/-- `os.path.basename` on a POSIX host: everything after the last `'/'`.
Backslashes are ordinary characters to POSIX `os.path`. -/
def osBasename (s : String) : String :=
  match listFindSub ['/'] s.data.reverse with
  | none => s
  | some k => String.mk (s.data.reverse.take k).reverse

/-- Python `s.lower()` (ASCII case fold; supplied identifiers and
document names are ASCII in this repository). -/
def pyLower (s : String) : String :=
  String.mk (s.data.map Char.toLower)

/-- Python `s.replace(old, new)` specialised to single characters. -/
def pyReplaceChar (s : String) (old new : Char) : String :=
  String.mk (s.data.map (fun c => if c = old then new else c))

/-- Python `s.split(sep)[-1]` for a single-character separator:
the suffix after the last occurrence of `sep`. -/
def pyLastSplit (s : String) (sep : Char) : String :=
  match listFindSub [sep] s.data.reverse with
  | none => s
  | some k => String.mk (s.data.reverse.take k).reverse

/-! ## JSON values (the image of Python's `json.loads`)

Numbers keep their source literal: no claim below inspects numeric
values, only the shape of records and their keys. -/

inductive JVal where
  | jnull
  | jbool (b : Bool)
  | jnum (lit : String)
  | jstr (s : String)
  | jarr (xs : List JVal)
  | jobj (fields : List (String × JVal))

/-- Key list of an object field list. -/
def jkeys (fields : List (String × JVal)) : List String :=
  fields.map Prod.fst

/-- Python `key in dict`. -/
def jhas (fields : List (String × JVal)) (k : String) : Bool :=
  fields.any (fun p => p.fst = k)

/-- Python `dict[key]` / `dict.get(key)` (first binding; parsed objects
are key-unique by construction, see `jinsert`). -/
def jget (fields : List (String × JVal)) (k : String) : Option JVal :=
  (fields.find? (fun p => p.fst = k)).map Prod.snd

/-- Python `dict[key] = v`: overwrite in place if present (keeping the
original position, as CPython dicts do), else append. -/
def jinsert (fields : List (String × JVal)) (k : String) (v : JVal) :
    List (String × JVal) :=
  if jhas fields k then
    fields.map (fun p => if p.fst = k then (k, v) else p)
  else fields ++ [(k, v)]

/-! ### A `json.loads` model

Fuel-indexed recursive-descent parser for the JSON subset exchanged by
this program: objects, arrays, double-quoted strings with the standard
single-character escapes and `\uXXXX`, numbers (kept as literals),
`true`, `false`, `null`.  `json.loads` requires the whole input (modulo
surrounding whitespace) to be one value. -/

def jsonWs (c : Char) : Bool :=
  c = ' ' || c = '\t' || c = '\n' || c = '\x0d'

def hexVal (c : Char) : Option Nat :=
  if '0' ≤ c ∧ c ≤ '9' then some (c.toNat - '0'.toNat)
  else if 'a' ≤ c ∧ c ≤ 'f' then some (c.toNat - 'a'.toNat + 10)
  else if 'A' ≤ c ∧ c ≤ 'F' then some (c.toNat - 'A'.toNat + 10)
  else none

/-- Parse the body of a JSON string after the opening quote. -/
def parseJStr : List Char → Option (List Char × List Char)
  | [] => none
  | '"' :: rest => some ([], rest)
  | '\\' :: e :: rest =>
    (match e with
     | '"' => (parseJStr rest).map (fun p => ('"' :: p.1, p.2))
     | '\\' => (parseJStr rest).map (fun p => ('\\' :: p.1, p.2))
     | '/' => (parseJStr rest).map (fun p => ('/' :: p.1, p.2))
     | 'b' => (parseJStr rest).map (fun p => ('\x08' :: p.1, p.2))
     | 'f' => (parseJStr rest).map (fun p => ('\x0c' :: p.1, p.2))
     | 'n' => (parseJStr rest).map (fun p => ('\n' :: p.1, p.2))
     | 'r' => (parseJStr rest).map (fun p => ('\x0d' :: p.1, p.2))
     | 't' => (parseJStr rest).map (fun p => ('\t' :: p.1, p.2))
     | 'u' =>
       match rest with
       | a :: b :: c :: d :: rest' =>
         match hexVal a, hexVal b, hexVal c, hexVal d with
         | some wa, some wb, some wc, some wd =>
           let n := ((wa * 16 + wb) * 16 + wc) * 16 + wd
           if h : n.isValidChar then
             (parseJStr rest').map (fun p => (Char.ofNatAux n h :: p.1, p.2))
           else none
         | _, _, _, _ => none
       | _ => none
     | _ => none)
  | c :: rest =>
    if c.toNat < 32 then none
    else (parseJStr rest).map (fun p => (c :: p.1, p.2))

def isDigit (c : Char) : Bool := '0' ≤ c && c ≤ '9'

/-- Collect a JSON number literal (sign, integer part, optional fraction
and exponent); returns the literal and the rest. -/
def parseJNum (cs : List Char) : Option (List Char × List Char) :=
  let (neg, cs1) := match cs with
                    | '-' :: t => (['-'], t)
                    | _ => (([] : List Char), cs)
  let intPart := cs1.takeWhile isDigit
  let cs2 := cs1.dropWhile isDigit
  if intPart.isEmpty then none
  else
    let (fracPart, cs3) :=
      match cs2 with
      | '.' :: t =>
        let ds := t.takeWhile isDigit
        if ds.isEmpty then (([] : List Char), cs2)
        else ('.' :: ds, t.dropWhile isDigit)
      | _ => (([] : List Char), cs2)
    let (expPart, cs4) :=
      match cs3 with
      | e :: t =>
        if e = 'e' ∨ e = 'E' then
          let (sgn, t1) := match t with
                           | '+' :: t' => (['+'], t')
                           | '-' :: t' => (['-'], t')
                           | _ => (([] : List Char), t)
          let ds := t1.takeWhile isDigit
          if ds.isEmpty then (([] : List Char), cs3)
          else (e :: sgn ++ ds, t1.dropWhile isDigit)
        else (([] : List Char), cs3)
      | _ => (([] : List Char), cs3)
    some (neg ++ intPart ++ fracPart ++ expPart, cs4)

mutual

/-- Parse one JSON value at the head of the input (leading whitespace
allowed); returns the value and the unconsumed rest. -/
def parseJVal : Nat → List Char → Option (JVal × List Char)
  | 0, _ => none
  | Nat.succ fuel, cs =>
    match cs.dropWhile jsonWs with
    | [] => none
    | c :: rest =>
      if c = '"' then
        (parseJStr rest).map (fun p => (JVal.jstr (String.mk p.1), p.2))
      else if c = '{' then
        parseJObj fuel rest
      else if c = '[' then
        parseJArr fuel rest
      else if c = 't' then
        if ['r', 'u', 'e'].isPrefixOf rest then
          some (JVal.jbool true, rest.drop 3)
        else none
      else if c = 'f' then
        if ['a', 'l', 's', 'e'].isPrefixOf rest then
          some (JVal.jbool false, rest.drop 4)
        else none
      else if c = 'n' then
        if ['u', 'l', 'l'].isPrefixOf rest then
          some (JVal.jnull, rest.drop 3)
        else none
      else
        (parseJNum (c :: rest)).map
          (fun p => (JVal.jnum (String.mk p.1), p.2))

/-- Parse an object body (after the `'\x7b'`). -/
def parseJObj : Nat → List Char → Option (JVal × List Char)
  | 0, _ => none
  | Nat.succ fuel, cs =>
    match cs.dropWhile jsonWs with
    | '}' :: rest => some (JVal.jobj [], rest)
    | _ => parseJMembers fuel cs []

/-- Parse `"key": value (, "key": value)* '\x7d'`. -/
def parseJMembers : Nat → List Char → List (String × JVal) →
    Option (JVal × List Char)
  | 0, _, _ => none
  | Nat.succ fuel, cs, acc =>
    match cs.dropWhile jsonWs with
    | '"' :: rest =>
      match parseJStr rest with
      | none => none
      | some (key, rest1) =>
        match rest1.dropWhile jsonWs with
        | ':' :: rest2 =>
          match parseJVal fuel rest2 with
          | none => none
          | some (v, rest3) =>
            let acc' := jinsert acc (String.mk key) v
            match rest3.dropWhile jsonWs with
            | ',' :: rest4 => parseJMembers fuel rest4 acc'
            | '}' :: rest4 => some (JVal.jobj acc', rest4)
            | _ => none
        | _ => none
    | _ => none

/-- Parse an array body (after the `'['`). -/
def parseJArr : Nat → List Char → Option (JVal × List Char)
  | 0, _ => none
  | Nat.succ fuel, cs =>
    match cs.dropWhile jsonWs with
    | ']' :: rest => some (JVal.jarr [], rest)
    | _ => parseJItems fuel cs []

/-- Parse `value (, value)* ']'`. -/
def parseJItems : Nat → List Char → List JVal → Option (JVal × List Char)
  | 0, _, _ => none
  | Nat.succ fuel, cs, acc =>
    match parseJVal fuel cs with
    | none => none
    | some (v, rest) =>
      match rest.dropWhile jsonWs with
      | ',' :: rest1 => parseJItems fuel rest1 (acc ++ [v])
      | ']' :: rest1 => some (JVal.jarr (acc ++ [v]), rest1)
      | _ => none

end

/-- Python `json.loads`: the whole input, modulo surrounding whitespace,
must be a single JSON value; `none` models `json.JSONDecodeError`. -/
def jsonLoads (s : String) : Option JVal :=
  match parseJVal (s.data.length + 1) s.data with
  | none => none
  | some (v, rest) => if (rest.dropWhile jsonWs).isEmpty then some v else none

/-! ## The regex scans of `robust_llm_func`

`re.findall` with Python's backtracking semantics, specialised to the
three patterns the source uses.  For each pattern the backtracking
search is deterministic (analysed per-pattern in the comments), so the
scans below are straight recursions. -/

/-- `[^\x7b\x7d]* \x7d` — the inner alternative `{[^{}]*}` of the brace
pattern, after its opening brace: plain characters up to a closing
brace, no nested braces. -/
def innerGroup : List Char → Option (List Char × List Char)
  | [] => none
  | c :: rest =>
    if c = '}' then some (['}'], rest)
    else if c = '{' then none
    else (innerGroup rest).map (fun p => (c :: p.1, p.2))

/-- Body of `\x7b(?:[^\x7b\x7d]|\x7b[^\x7b\x7d]*\x7d)*\x7d` after the
opening brace.  The repetition consumes plain characters and complete
depth-one inner groups; it must stop at the first top-level closing
brace (no alternative can consume it), which then matches the final
literal.  A `'\x7b'` whose inner group fails aborts the whole match
(every shorter repetition leaves a non-`'\x7d'` at the final literal). -/
def braceBody : Nat → List Char → Option (List Char × List Char)
  | 0, _ => none
  | _ + 1, [] => none
  | fuel + 1, c :: rest =>
    if c = '}' then some (['}'], rest)
    else if c = '{' then
      match innerGroup rest with
      | none => none
      | some (inner, rest') =>
        (braceBody fuel rest').map (fun p => ('{' :: inner ++ p.1, p.2))
    else (braceBody fuel rest).map (fun p => (c :: p.1, p.2))

/-- Try the brace pattern anchored at the head of the input. -/
def braceMatchAt (cs : List Char) : Option (String × List Char) :=
  match cs with
  | '{' :: rest =>
    (braceBody (rest.length + 1) rest).map
      (fun p => (String.mk ('{' :: p.1), p.2))
  | _ => none

/-- `re.findall(r'\x7b(?:[^\x7b\x7d]|\x7b[^\x7b\x7d]*\x7d)*\x7d', s)`:
left-to-right scan, non-overlapping, resuming after each match. -/
def findallBraces : Nat → List Char → List String
  | 0, _ => []
  | _ + 1, [] => []
  | fuel + 1, c :: rest =>
    match braceMatchAt (c :: rest) with
    | some (m, rest') => m :: findallBraces fuel rest'
    | none => findallBraces fuel rest

/-- Is the rest of the input `\s*` followed by a literal triple
backtick?  (`\s*` is greedy, but any shorter prefix of the whitespace
run is followed by whitespace, never by a backtick, so only the maximal
run can succeed.) -/
def fenceFollows (cs : List Char) : Bool :=
  ['`', '`', '`'].isPrefixOf (cs.dropWhile isPySpace)

/-- The lazy `.*?\x7d` of the fenced pattern after the opening brace:
stop at the earliest `'\x7d'` that is followed by `\s*` and a closing
fence; return the consumed characters (through that brace) and the rest
after the closing fence. -/
def fencedBody : List Char → Option (List Char × List Char)
  | [] => none
  | c :: rest =>
    if c = '}' ∧ fenceFollows rest then
      some (['}'], (rest.dropWhile isPySpace).drop 3)
    else (fencedBody rest).map (fun p => (c :: p.1, p.2))

/-- Try `(three backticks)(?:json)?\s*(\x7b.*?\x7d)\s*(three backticks)`
anchored at the head.  If the literal `json` is present it is consumed
(the greedy option); declining it cannot help, since `\s*` would then
face the letter `'j'` where the pattern needs `'\x7b'`. -/
def fenceMatchAt (cs : List Char) : Option (String × List Char) :=
  if ['`', '`', '`'].isPrefixOf cs then
    let cs1 := cs.drop 3
    let cs2 := if ['j', 's', 'o', 'n'].isPrefixOf cs1 then cs1.drop 4 else cs1
    match cs2.dropWhile isPySpace with
    | '{' :: rest =>
      (fencedBody rest).map (fun p => (String.mk ('{' :: p.1), p.2))
    | _ => none
  else none

/-- `re.findall` of the fenced pattern (capture group only), left to
right, resuming after each whole match. -/
def findallFenced : Nat → List Char → List String
  | 0, _ => []
  | _ + 1, [] => []
  | fuel + 1, c :: rest =>
    match fenceMatchAt (c :: rest) with
    | some (m, rest') => m :: findallFenced fuel rest'
    | none => findallFenced fuel rest

/-! ## The entity heuristics of the fallback path -/

/-- Python `\w` restricted to ASCII (the inputs here are ASCII). -/
def isWordChar (c : Char) : Bool :=
  ('a' ≤ c && c ≤ 'z') || ('A' ≤ c && c ≤ 'Z') || ('0' ≤ c && c ≤ '9') || c = '_'

def isUpperA (c : Char) : Bool := 'A' ≤ c && c ≤ 'Z'

def isLowerA (c : Char) : Bool := 'a' ≤ c && c ≤ 'z'

def isDigitA (c : Char) : Bool := '0' ≤ c && c ≤ '9'

/-- A word boundary sits before `cs`: end of input or a non-word head. -/
def boundaryOK (cs : List Char) : Bool :=
  match cs with
  | [] => true
  | c :: _ => !isWordChar c

/-- One `\s+[A-Z][a-z]+` continuation segment of the proper-noun
pattern. -/
def parseSeg (rest : List Char) : Option (List Char × List Char) :=
  let ws := rest.takeWhile isPySpace
  if ws.isEmpty then none
  else
    match rest.dropWhile isPySpace with
    | u :: r2 =>
      if isUpperA u then
        let low := r2.takeWhile isLowerA
        if low.isEmpty then none
        else some (ws ++ u :: low, r2.dropWhile isLowerA)
      else none
    | [] => none

/-- Greedy `(?:\s+[A-Z][a-z]+)*` followed by a required `\b`.  The last
segment is kept only when a boundary follows it (shortening its
letter run always lands between two word characters, so on a failed
final boundary the whole segment is dropped; earlier cut points are
followed by the next segment's whitespace, hence are boundaries). -/
def extSegs : Nat → List Char → List Char × List Char
  | 0, rest => ([], rest)
  | fuel + 1, rest =>
    match parseSeg rest with
    | none => ([], rest)
    | some (seg, rest') =>
      let more := extSegs fuel rest'
      if more.1.isEmpty then
        if boundaryOK rest' then (seg, rest') else ([], rest)
      else (seg ++ more.1, more.2)

/-- `[A-Z][a-z]+(?:\s+[A-Z][a-z]+)*\b` anchored at the head (the
boundary before the head is the scanner's concern). -/
def matchP1At (cs : List Char) : Option (String × List Char) :=
  match cs with
  | [] => none
  | c :: rest =>
    if isUpperA c then
      let low := rest.takeWhile isLowerA
      if low.isEmpty then none
      else
        let rest1 := rest.dropWhile isLowerA
        let ext := extSegs rest1.length rest1
        if ext.1.isEmpty then
          if boundaryOK rest1 then some (String.mk (c :: low), rest1)
          else none
        else some (String.mk (c :: low ++ ext.1), ext.2)
    else none

/-- `re.findall(r'\b[A-Z][a-z]+(?:\s+[A-Z][a-z]+)*\b', s)`;
`prevWord` tracks whether the previous character was a word character
(for the leading boundary). -/
def findP1 : Nat → Bool → List Char → List String
  | 0, _, _ => []
  | _ + 1, _, [] => []
  | fuel + 1, prevWord, c :: rest =>
    if !prevWord then
      match matchP1At (c :: rest) with
      | some (m, rest') => m :: findP1 fuel true rest'
      | none => findP1 fuel (isWordChar c) rest
    else findP1 fuel (isWordChar c) rest

/-- `\$[\d,]+\.?\d*` anchored at the head (no boundaries; everything
greedy with nothing after, hence maximal). -/
def matchP2At (cs : List Char) : Option (String × List Char) :=
  match cs with
  | '$' :: rest =>
    let run := rest.takeWhile (fun c => isDigitA c || c = ',')
    if run.isEmpty then none
    else
      let r1 := rest.dropWhile (fun c => isDigitA c || c = ',')
      match r1 with
      | '.' :: r2 =>
        let ds := r2.takeWhile isDigitA
        some (String.mk ('$' :: run ++ '.' :: ds), r2.dropWhile isDigitA)
      | _ => some (String.mk ('$' :: run), r1)
  | _ => none

/-- `re.findall(r'\$[\d,]+\.?\d*', s)`. -/
def findP2 : Nat → List Char → List String
  | 0, _ => []
  | _ + 1, [] => []
  | fuel + 1, c :: rest =>
    match matchP2At (c :: rest) with
    | some (m, rest') => m :: findP2 fuel rest'
    | none => findP2 fuel rest

/-- Pick `\d\x7b1,2\x7d` followed by the slash-or-dash separator: two digits if
the third character is a separator, else one digit if the second is. -/
def dayPart (cs : List Char) : Option (List Char × List Char) :=
  match cs with
  | a :: b :: c :: rest =>
    if isDigitA a ∧ isDigitA b ∧ (c = '/' ∨ c = '-') then
      some ([a, b, c], rest)
    else if isDigitA a ∧ (b = '/' ∨ b = '-') then some ([a, b], c :: rest)
    else none
  | a :: b :: rest =>
    if isDigitA a ∧ (b = '/' ∨ b = '-') then some ([a, b], rest) else none
  | _ => none

/-- `\d\x7b2,4\x7d\b`: the year digits, greedy from 4 down to 2, with a
word boundary after (all digits are word characters, so only a cut at
the end of the digit run can succeed; hence: the digit run must have
length 2, 3 or 4). -/
def yearPart (cs : List Char) : Option (List Char × List Char) :=
  let ds := cs.takeWhile isDigitA
  let rest := cs.dropWhile isDigitA
  if 2 ≤ ds.length ∧ ds.length ≤ 4 then some (ds, rest) else none

/-- The date pattern (one or two digits, slash-or-dash, one or two
digits, slash-or-dash, year part) anchored at the head. -/
def matchP3At (cs : List Char) : Option (String × List Char) :=
  match dayPart cs with
  | none => none
  | some (d1, r1) =>
    match dayPart r1 with
    | none => none
    | some (d2, r2) =>
      match yearPart r2 with
      | none => none
      | some (d3, r3) => some (String.mk (d1 ++ d2 ++ d3), r3)

/-- `re.findall` of the date pattern (with leading word boundary). -/
def findP3 : Nat → Bool → List Char → List String
  | 0, _, _ => []
  | _ + 1, _, [] => []
  | fuel + 1, prevWord, c :: rest =>
    if !prevWord ∧ isDigitA c then
      match matchP3At (c :: rest) with
      | some (m, rest') => m :: findP3 fuel true rest'
      | none => findP3 fuel (isWordChar c) rest
    else findP3 fuel (isWordChar c) rest

/-- `re.findall(r'\b[A-Z]\x7b2,\x7d\b', s)`: maximal uppercase runs of
length at least two delimited by boundaries (shortening a run lands
between two word characters, so only the maximal run can succeed). -/
def findP4 : Nat → Bool → List Char → List String
  | 0, _, _ => []
  | _ + 1, _, [] => []
  | fuel + 1, prevWord, c :: rest =>
    if !prevWord ∧ isUpperA c then
      let run := rest.takeWhile isUpperA
      let rest' := rest.dropWhile isUpperA
      if 1 ≤ run.length ∧ boundaryOK rest' then
        String.mk (c :: run) :: findP4 fuel true rest'
      else findP4 fuel (isWordChar c) rest
    else findP4 fuel (isWordChar c) rest

/-- Helper for `pySetList`: drop elements already seen. -/
def pySetListAux : List String → List String → List String
  | [], _ => []
  | x :: xs, seen =>
    if x ∈ seen then pySetListAux xs seen
    else x :: pySetListAux xs (x :: seen)

/-- Deduplication keeping first occurrences: a deterministic reading of
Python's `list(set(l))` / set unions (the set's iteration order is
unspecified; no claim below depends on the order, only on membership). -/
def pySetList (l : List String) : List String :=
  pySetListAux l []

/-- The fallback entity extraction: each of the four patterns capped at
5 matches, concatenated, deduplicated, capped at 10. -/
def extractEntities (s : String) : List String :=
  let cs := s.data
  let ents := (findP1 cs.length false cs).take 5 ++
    (findP2 cs.length cs).take 5 ++
    (findP3 cs.length false cs).take 5 ++
    (findP4 cs.length false cs).take 5
  (pySetList ents).take 10

/-! ## The Content Normalizer (`robust_llm_func` in `_fix_modal_processors`)

The upstream LLM invocation is outside this core: the model below takes
the raw response text (the source's `response` after its `None` /
non-`str` guards, which only apply to non-string values) and returns the
record that the source serialises with `json.dumps` on its final line.
The single statement of the source that can raise inside its big `try`
on a string input is the logging line
`len(valid_json.get('entities', []))`; a raise there is caught by the
top-level `except`, which builds the minimal error record. -/

/-- The Python type name of a JSON value (for error messages). -/
def pyTypeName : JVal → String
  | JVal.jnull => "NoneType"
  | JVal.jbool _ => "bool"
  | JVal.jnum lit =>
    if lit.data.any (fun c => c = '.' || c = 'e' || c = 'E') then "float"
    else "int"
  | JVal.jstr _ => "str"
  | JVal.jarr _ => "list"
  | JVal.jobj _ => "dict"

/-- Python `len` on a JSON value: defined for strings, lists and dicts,
a `TypeError` (`none`) otherwise. -/
def pyLenOf : JVal → Option Nat
  | JVal.jstr s => some s.data.length
  | JVal.jarr xs => some xs.length
  | JVal.jobj f => some f.length
  | _ => none

/-- The candidate loop of Step 2: try each brace match in order; the
first one `json.loads` accepts wins, and the text of `response` after
that match's first occurrence, stripped, is the `extra_content`. -/
def firstValidJson (response : String) : List String → Option (JVal × String)
  | [] => none
  | cand :: rest =>
    match jsonLoads cand with
    | some v =>
      let jend := (pyFind response cand).getD 0 + pyLenStr cand
      some (v, pyStrip (pyDrop response jend))
    | none => firstValidJson response rest

/-- Step 3: the fallback record constructed when no brace span parses. -/
def fallbackRecord (original_response : String) : JVal :=
  JVal.jobj [("description", JVal.jstr (pyTake original_response 500)),
    ("entities", JVal.jarr ((extractEntities original_response).map JVal.jstr)),
    ("analysis", JVal.jstr "Content processed with partial extraction"),
    ("original_length", JVal.jnum (toString (pyLenStr original_response)))]

/-- The record built by the top-level `except` handler. -/
def errorRecord (response : String) (msg : String) : JVal :=
  JVal.jobj [("description", JVal.jstr ("Processing error occurred: " ++ pyTake msg 100)),
    ("entities", JVal.jarr []),
    ("error", JVal.jbool true),
    ("original_content", JVal.jstr (pyTake response 300))]

/-- The tail of the function: `json.dumps` (total on `JVal`) followed by
the logging line, whose `valid_json.get('entities', [])` raises an
`AttributeError` on a non-dict and whose `len` raises a `TypeError` on a
non-sized value; either lands in the `except` handler. -/
def finalCheck (response : String) (v : JVal) : JVal :=
  match v with
  | JVal.jobj f =>
    match pyLenOf ((jget f "entities").getD (JVal.jarr [])) with
    | some _ => JVal.jobj f
    | none =>
      errorRecord response ("object of type '" ++
        pyTypeName ((jget f "entities").getD (JVal.jarr [])) ++ "' has no len()")
  | w =>
    errorRecord response ("'" ++ pyTypeName w ++ "' object has no attribute 'get'")

/-- Step 1: extract the first fenced code block's JSON capture, when
the response mentions a fence at all; `json_blocks[0].strip()`. -/
def normResponse (response0 : String) : String :=
  if pyIn "```json" response0 || pyIn "```" response0 then
    match findallFenced response0.data.length response0.data with
    | [] => response0
    | b :: _ => pyStrip b
  else response0

/-- Step 4: attach up to 200 characters of the post-JSON text under
`additional_notes` when the parsed record is a dict lacking that key. -/
def step4 (valid_json : JVal) (extra_content : String) : JVal :=
  if extra_content ≠ "" then
    match valid_json with
    | JVal.jobj f =>
      if jhas f "additional_notes" then JVal.jobj f
      else JVal.jobj
        (jinsert f "additional_notes" (JVal.jstr (pyTake extra_content 200)))
    | w => w
  else valid_json

/-- Backfill `description` with the first 200 characters of the raw
text when absent. -/
def ensureDescription (original_response : String)
    (f : List (String × JVal)) : List (String × JVal) :=
  if jhas f "description" then f
  else jinsert f "description" (JVal.jstr (pyTake original_response 200))

/-- Backfill `entities` with the empty list when absent. -/
def ensureEntities (f : List (String × JVal)) : List (String × JVal) :=
  if jhas f "entities" then f else jinsert f "entities" (JVal.jarr [])

/-- Step 5: backfill `description` and `entities` on a dict that lacks
them. -/
def step5 (original_response : String) (v : JVal) : JVal :=
  match v with
  | JVal.jobj f => JVal.jobj (ensureEntities (ensureDescription original_response f))
  | w => w

/-- Steps 4, 5, serialisation and the logging line. -/
def normSteps (original_response response : String) (valid_json : JVal)
    (extra_content : String) : JVal :=
  finalCheck response (step5 original_response (step4 valid_json extra_content))

/-- The Content Normalizer: `robust_llm_func` applied to the raw model
response text (`original_response` is the stripped input, `response`
the step-1 extraction).  Returns the record serialised by the source's
final `json.dumps`. -/
def robust_llm_func (resp : String) : JVal :=
  match firstValidJson (normResponse (pyStrip resp))
      (findallBraces (normResponse (pyStrip resp)).data.length
        (normResponse (pyStrip resp)).data) with
  | some p => normSteps (pyStrip resp) (normResponse (pyStrip resp)) p.1 p.2
  | none =>
    normSteps (pyStrip resp) (normResponse (pyStrip resp))
      (fallbackRecord (pyStrip resp)) ""

/-! ## The document-lifecycle state

One record holds every store the Orchestrator and Registry touch:
the in-memory idempotency cache (a Python set of path strings), the
persisted cache file (`storage/cache/processed_files.json`, `none` when
the file is absent), the file names in the pending and processed
directories, files outside those directories (by full path string), the
knowledge-base storage directory and its document table
(`kv_store_full_docs.json`). -/

def PENDING_DIR : String := "documents/pending"

def PROCESSED_DIR : String := "documents/processed"

def CACHE_DIR : String := "storage/cache"

def LIGHTRAG_DIR : String := "storage/lightrag_storage"

structure DocPath where
  dir : String
  name : String
deriving DecidableEq

/-- `str(file_path)` for a file `name` inside directory `dir`. -/
def pathStr (p : DocPath) : String := p.dir ++ "/" ++ p.name

structure SysState where
  cache : List String
  storage : Option (List String)
  pendingD : List String
  processedD : List String
  others : List String
  kbDirExists : Bool
  kbTable : List (String × JVal)

/-- Filesystem mutations, recorded so that claims about the mutation
mechanism (rename vs copy-then-delete) can be stated. -/
inductive FsOp where
  | rename (src dst : DocPath)
  | writeBytes (dst : DocPath)
  | unlink (p : DocPath)
  | rmtreeDir (d : String)
  | mkdirDir (d : String)
  | writeCacheFile
deriving DecidableEq

/-- Set insertion (Python `set.add`): duplicates are no-ops. -/
def setInsert (l : List String) (x : String) : List String :=
  if x ∈ l then l else l ++ [x]

/-- `file_path.exists()` against the modelled stores. -/
def fileExists (st : SysState) (p : DocPath) : Bool :=
  if p.dir = PENDING_DIR then decide (p.name ∈ st.pendingD)
  else if p.dir = PROCESSED_DIR then decide (p.name ∈ st.processedD)
  else decide (pathStr p ∈ st.others)

/-- `Config.mark_file_as_processed`: move the file from the pending to
the processed directory via `Path.rename` (which overwrites an existing
destination), guarded by existence and by the parent check. -/
def mark_file_as_processed (st : SysState) (p : DocPath) :
    SysState × List FsOp :=
  if fileExists st p && decide (p.dir = PENDING_DIR) then
    ({ st with pendingD := st.pendingD.filter (fun n => n ≠ p.name),
               processedD := setInsert st.processedD p.name },
     [FsOp.rename p ⟨PROCESSED_DIR, p.name⟩])
  else (st, [])

/-- `_save_processed_files_cache`: full rewrite of the persisted set
(its own `try` catches storage failures; a failed write leaves the old
file, which no claim below exercises, so the write is modelled as
succeeding). -/
def saveCache (st : SysState) : SysState × List FsOp :=
  ({ st with storage := some st.cache }, [FsOp.writeCacheFile])

/-- `_load_processed_files_cache`: `set(json.load(f))` when the file
exists, the empty set otherwise. -/
def loadCache (storage : Option (List String)) : List String :=
  match storage with
  | none => []
  | some l => pySetList l

/-! ## The Processing Orchestrator -/

structure ProcResult where
  result : Bool
  state : SysState
  calls : Nat
  trace : List FsOp

/-- `RAGManager.process_document`.  `pipeline p = true` models
`process_document_complete` returning, `false` models it raising; the
pipeline's own side effects live in the knowledge base, outside the
stores this model tracks.  `calls` counts pipeline invocations. -/
def process_document (pipeline : DocPath → Bool) (st : SysState)
    (p : DocPath) (force_reprocess : Bool) : ProcResult :=
  if fileExists st p = false then ⟨false, st, 0, []⟩
  else if !force_reprocess && decide (pathStr p ∈ st.cache) then
    ⟨false, st, 0, []⟩
  else if pipeline p = false then ⟨false, st, 1, []⟩
  else
    let st1 := { st with cache := setInsert st.cache (pathStr p) }
    let s2 := saveCache st1
    if p.dir = PENDING_DIR then
      let s3 := mark_file_as_processed s2.1 p
      ⟨true, s3.1, 1, s2.2 ++ s3.2⟩
    else ⟨true, s2.1, 1, s2.2⟩

structure BatchResult where
  processed : Nat
  skipped : Nat
  failed : Nat
  state : SysState
  calls : Nat

/-- One iteration of the `process_pending_documents` loop on the
pending-directory snapshot entry `name` (a regular file). -/
def processPendingStep (pipeline : DocPath → Bool) (force : Bool)
    (acc : BatchResult) (name : String) : BatchResult :=
  let r := process_document pipeline acc.state ⟨PENDING_DIR, name⟩ force
  if r.result then
    { acc with processed := acc.processed + 1, state := r.state,
               calls := acc.calls + r.calls }
  else if pathStr ⟨PENDING_DIR, name⟩ ∈ r.state.cache then
    { acc with skipped := acc.skipped + 1, state := r.state,
               calls := acc.calls + r.calls }
  else
    { acc with failed := acc.failed + 1, state := r.state,
               calls := acc.calls + r.calls }

/-- `RAGManager.process_pending_documents`: snapshot the pending
directory once, run the per-file loop, classify each `False` result by
cache membership after the call. -/
def process_pending_documents (pipeline : DocPath → Bool) (st : SysState)
    (force : Bool) : BatchResult :=
  st.pendingD.foldl (processPendingStep pipeline force) ⟨0, 0, 0, st, 0⟩

/-! ## The Document Registry -/

/-- Basenames collected from the knowledge-base document table: records
that are dicts with a `file_path` field contribute
`os.path.basename(file_path)`; a non-string `file_path` makes
`os.path.basename` raise a `TypeError`, which the surrounding bare
`except` turns into stopping the collection with what was gathered. -/
def kbDocs : List (String × JVal) → List String
  | [] => []
  | (_, info) :: rest =>
    match info with
    | JVal.jobj f =>
      if jhas f "file_path" then
        match jget f "file_path" with
        | some (JVal.jstr fp) => osBasename fp :: kbDocs rest
        | _ => []
      else kbDocs rest
    | _ => kbDocs rest

/-- Lexicographic string order by code point (Python `sorted` on
strings). -/
def strLeChars : List Char → List Char → Bool
  | [], _ => true
  | _ :: _, [] => false
  | a :: as, b :: bs =>
    if a < b then true else if b < a then false else strLeChars as bs

def insertSorted (x : String) : List String → List String
  | [] => [x]
  | y :: ys =>
    if strLeChars x.data y.data then x :: y :: ys else y :: insertSorted x ys

/-- Python `sorted` on a list of strings. -/
def sortStrings (l : List String) : List String :=
  l.foldr insertSorted []

/-- `QueryInterface._get_processed_documents_list`: names from the
cache (basenames, falling back to the raw identifier when the basename
is empty or unchanged), the processed directory (hidden files excluded),
and the knowledge-base table; unioned, then cleaned (both separator
kinds stripped to the final component; empty, single-character and
dot-leading names dropped), deduplicated and sorted. -/
def get_processed_documents_list (cache : List String)
    (processedD : List String) (kbTable : List (String × JVal)) :
    List String :=
  let fromCache := cache.map
    (fun c => let f := osBasename c; if f ≠ "" ∧ f ≠ c then f else c)
  let fromDir := processedD.filter (fun n => !pyStartsWith n ".")
  let fromKb := kbDocs kbTable
  let all_docs := pySetList (fromCache ++ fromDir ++ fromKb)
  let clean := ((all_docs.filter (fun d => d ≠ "")).map
      (fun d => pyLastSplit (pyReplaceChar d '\\' '/') '/')).filter
    (fun c => c ≠ "" ∧ ¬ pyStartsWith c "." ∧ 1 < pyLenStr c)
  sortStrings (pySetList clean)

structure DocInfo where
  in_cache : Bool
  in_processed_dir : Bool
  in_knowledge_base : Bool
  file_size : Option String
  process_date : Option String
deriving DecidableEq

/-- The cache-derived basename set of the detailed listing (empty
identifiers are falsy and skipped before `os.path.basename`). -/
def cacheDocsOf (cache : List String) : List String :=
  (cache.filter (fun c => c ≠ "")).map osBasename

/-- The processed-directory entries of the detailed listing: visible
files with their formatted stat metadata, `"Unknown"` on a stat
failure. -/
def processedDocsOf
    (processedEntries : List (String × Option (String × String))) :
    List (String × String × String) :=
  (processedEntries.filter (fun e => !pyStartsWith e.1 ".")).map
    (fun e => (e.1, match e.2 with
      | some m => m
      | none => (("Unknown" : String), ("Unknown" : String))))

/-- The per-name record of the detailed listing. -/
def docInfoFor (cache : List String)
    (processedEntries : List (String × Option (String × String)))
    (kbTable : List (String × JVal)) (n : String) : DocInfo :=
  { in_cache := decide (n ∈ cacheDocsOf cache)
    in_processed_dir :=
      decide (n ∈ (processedDocsOf processedEntries).map Prod.fst)
    in_knowledge_base := decide (n ∈ kbDocs kbTable)
    file_size := ((processedDocsOf processedEntries).find?
      (fun e => e.1 = n)).map (fun e => e.2.1)
    process_date := ((processedDocsOf processedEntries).find?
      (fun e => e.1 = n)).map (fun e => e.2.2) }

/-- `QueryInterface._get_detailed_documents_info`.  `processedEntries`
pairs each visible file of the processed directory with its stat result
(`none` = the per-file stat raised, reported as `"Unknown"`).  The
result maps each retained name to its provenance flags and optional
metadata; Python iterates the union as a set, so only membership and
per-name values are meaningful, and the model fixes first-appearance
order. -/
def get_detailed_documents_info (cache : List String)
    (processedEntries : List (String × Option (String × String)))
    (kbTable : List (String × JVal)) : List (String × DocInfo) :=
  ((pySetList (cacheDocsOf cache ++
      (processedDocsOf processedEntries).map Prod.fst ++
      kbDocs kbTable)).filter
    (fun n => n ≠ "" ∧ 1 < pyLenStr n ∧ ¬ pyStartsWith n ".")).map
    (fun n => (n, docInfoFor cache processedEntries kbTable n))

/-! ## Removal -/

structure RemResult where
  result : Bool
  state : SysState
  trace : List FsOp

/-- `QueryInterface._remove_document_from_storage`.  The cache pass
collects every identifier that contains `doc_name` or ends with it,
discards them, and persists; then a same-named processed file is
renamed back to pending.  `renameFault = true` models that rename
raising (the one fallible statement after the persisted save): the
`except` returns `False` with the cache already rewritten. -/
def remove_document_from_storage (renameFault : Bool) (st : SysState)
    (doc_name : String) : RemResult :=
  let keep := fun c => !(pyIn doc_name c || pyEndsWith c doc_name)
  let st1 := { st with cache := st.cache.filter keep }
  let s2 := saveCache st1
  if decide (doc_name ∈ s2.1.processedD) then
    if renameFault then ⟨false, s2.1, s2.2⟩
    else
      ⟨true,
       { s2.1 with processedD := s2.1.processedD.filter (fun n => n ≠ doc_name),
                   pendingD := setInsert s2.1.pendingD doc_name },
       s2.2 ++ [FsOp.rename ⟨PROCESSED_DIR, doc_name⟩ ⟨PENDING_DIR, doc_name⟩]⟩
  else ⟨true, s2.1, s2.2⟩

/-- The parsed outcome of the disambiguation `input()` (an external-UI
value): the literal `all`, an integer, or anything else. -/
inductive UserChoice where
  | all
  | num (n : Int)
  | invalid
deriving DecidableEq

/-- Python `l[i]` with negative indexing (`none` = `IndexError`). -/
def pyIndex (l : List String) (i : Int) : Option String :=
  if 0 ≤ i ∧ i < (l.length : Int) then l.get? i.toNat
  else if -(l.length : Int) ≤ i ∧ i < 0 then l.get? (l.length - (-i).toNat)
  else none

/-- `QueryInterface.remove_document`: resolve the identifier by
case-insensitive substring match against the registry's name list,
disambiguate via `choice` when several names match, then run the
per-name storage removal; the boolean result is `True` whenever a
selection was made, regardless of the per-name outcomes. -/
def remove_document (renameFault : String → Bool) (st : SysState)
    (doc_identifier : String) (choice : UserChoice) : Bool × SysState :=
  let available := get_processed_documents_list st.cache st.processedD st.kbTable
  let matchList := available.filter
    (fun d => pyIn (pyLower doc_identifier) (pyLower d))
  if matchList.isEmpty then (false, st)
  else
    let selected? : Option (List String) :=
      if 1 < matchList.length then
        match choice with
        | UserChoice.all => some matchList
        | UserChoice.num n =>
          match pyIndex matchList (n - 1) with
          | some d => some [d]
          | none => none
        | UserChoice.invalid => none
      else some matchList
    match selected? with
    | none => (false, st)
    | some selected =>
      (true,
       selected.foldl
         (fun acc d => (remove_document_from_storage (renameFault d) acc d).state)
         st)

/-- `QueryInterface._clear_storage_directories`: one `try` wraps all
three cleanup steps (remove and recreate the knowledge-base storage
directory, unlink the cache file, copy each processed file's bytes to
pending and unlink the original).  `rmtreeFault` / `unlinkFault` model
the corresponding call raising; the handler prints and returns, so a
raise skips every later step. -/
def clear_storage_directories (rmtreeFault unlinkFault : Bool)
    (st : SysState) : SysState × List FsOp :=
  if st.kbDirExists ∧ rmtreeFault then (st, [])
  else
    let s1 : SysState × List FsOp :=
      if st.kbDirExists then
        ({ st with kbTable := [], kbDirExists := true },
         [FsOp.rmtreeDir LIGHTRAG_DIR, FsOp.mkdirDir LIGHTRAG_DIR])
      else (st, [])
    if s1.1.storage ≠ none ∧ unlinkFault then (s1.1, s1.2)
    else
      let s2 : SysState × List FsOp :=
        if s1.1.storage ≠ none then
          ({ s1.1 with storage := none },
           s1.2 ++ [FsOp.unlink ⟨CACHE_DIR, "processed_files.json"⟩])
        else (s1.1, s1.2)
      let names := s2.1.processedD
      ({ s2.1 with processedD := [],
                   pendingD := names.foldl setInsert s2.1.pendingD },
       s2.2 ++ (names.map (fun n =>
         [FsOp.writeBytes ⟨PENDING_DIR, n⟩, FsOp.unlink ⟨PROCESSED_DIR, n⟩])).flatten)

/-! ## Helper lemmas -/

theorem mem_pySetListAux (l : List String) :
    ∀ (seen : List String) (x : String),
      x ∈ pySetListAux l seen ↔ (x ∈ l ∧ x ∉ seen) := by
  induction l with
  | nil => intro seen x; simp [pySetListAux]
  | cons y ys ih =>
    intro seen x
    by_cases hy : y ∈ seen
    · rw [pySetListAux, if_pos hy, ih]
      constructor
      · rintro ⟨hx, hs⟩; exact ⟨List.mem_cons_of_mem _ hx, hs⟩
      · rintro ⟨hx, hs⟩
        rcases List.mem_cons.mp hx with rfl | hx
        · exact absurd hy hs
        · exact ⟨hx, hs⟩
    · rw [pySetListAux, if_neg hy]
      constructor
      · intro hx
        rcases List.mem_cons.mp hx with rfl | hx
        · exact ⟨List.mem_cons_self _ _, hy⟩
        · rcases (ih _ _).mp hx with ⟨h1, h2⟩
          refine ⟨List.mem_cons_of_mem _ h1, fun hs => h2 ?_⟩
          exact List.mem_cons_of_mem _ hs
      · rintro ⟨hx, hs⟩
        rcases List.mem_cons.mp hx with rfl | hx
        · exact List.mem_cons_self _ _
        · by_cases hxy : x = y
          · subst hxy; exact List.mem_cons_self _ _
          · refine List.mem_cons_of_mem _ ((ih _ _).mpr ⟨hx, ?_⟩)
            intro hmem
            rcases List.mem_cons.mp hmem with h | h
            · exact hxy h
            · exact hs h

theorem mem_pySetList (l : List String) (x : String) :
    x ∈ pySetList l ↔ x ∈ l := by
  rw [pySetList, mem_pySetListAux]
  simp

theorem mem_setInsert_self (l : List String) (x : String) :
    x ∈ setInsert l x := by
  unfold setInsert
  by_cases h : x ∈ l
  · rwa [if_pos h]
  · rw [if_neg h]; simp

theorem mem_setInsert_iff (l : List String) (x y : String) :
    y ∈ setInsert l x ↔ (y ∈ l ∨ y = x) := by
  unfold setInsert
  by_cases h : x ∈ l
  · rw [if_pos h]
    constructor
    · exact Or.inl
    · rintro (hy | rfl)
      · exact hy
      · exact h
  · rw [if_neg h]; simp

/-- C5 (Cache persistence round-trip): saving the in-memory cache set
and loading the persisted file back yields a set equal to the saved
one, and loading when the persisted cache file does not exist yields
the empty set (no error: the source returns the empty set on a missing
file).  The JSON array serialisation of `json.dump` / `json.load` is
library code, modelled as the identity on the list of identifiers. -/
theorem cache_save_load_roundtrip :
    (∀ (st : SysState) (x : String),
      x ∈ loadCache (saveCache st).1.storage ↔ x ∈ st.cache) ∧
    loadCache none = [] := by
  constructor
  · intro st x
    show x ∈ loadCache (some st.cache) ↔ x ∈ st.cache
    rw [loadCache, mem_pySetList]
  · rfl

/-- C1 (Idempotency): if `process_document(p)` succeeded, a second call
with `force_reprocess = False` returns `False`, performs no pipeline
call, and leaves the whole state (in particular the cache) unchanged;
across the two calls the pipeline ran exactly once, hence at most once. -/
theorem process_document_idempotent (pipeline : DocPath → Bool)
    (st : SysState) (p : DocPath)
    (h : (process_document pipeline st p false).result = true) :
    (process_document pipeline (process_document pipeline st p false).state
        p false).result = false ∧
    (process_document pipeline (process_document pipeline st p false).state
        p false).calls = 0 ∧
    (process_document pipeline (process_document pipeline st p false).state
        p false).state = (process_document pipeline st p false).state ∧
    (process_document pipeline st p false).calls +
      (process_document pipeline (process_document pipeline st p false).state
        p false).calls ≤ 1 := by
  cases hfe : fileExists st p with
  | false => simp [process_document, hfe] at h
  | true =>
    by_cases hmem : pathStr p ∈ st.cache
    · simp [process_document, hfe, hmem] at h
    · cases hpl : pipeline p with
      | false => simp [process_document, hfe, hmem, hpl] at h
      | true =>
        by_cases hdir : p.dir = PENDING_DIR
        · have hpn : p.name ∈ st.pendingD := by
            have := hfe
            rw [fileExists, if_pos hdir] at this
            exact of_decide_eq_true this
          simp [process_document, hfe, hmem, hpl, hdir, saveCache,
            mark_file_as_processed, fileExists, hpn, List.mem_filter]
        · have hfe2 : fileExists { st with
              cache := setInsert st.cache (pathStr p),
              storage := some (setInsert st.cache (pathStr p)) } p = true := hfe
          simp [process_document, hfe, hmem, hpl, hdir, saveCache, hfe2,
            mem_setInsert_self]

/-- Witness for C1: a pending file, an empty cache, a succeeding
pipeline. -/
theorem process_document_idempotent_witness :
    (process_document (fun _ => true)
      { cache := [], storage := none, pendingD := ["doc.pdf"],
        processedD := [], others := [], kbDirExists := true,
        kbTable := [] } ⟨PENDING_DIR, "doc.pdf"⟩ false).result = true ∧
    ((process_document (fun _ => true)
      (process_document (fun _ => true)
        { cache := [], storage := none, pendingD := ["doc.pdf"],
          processedD := [], others := [], kbDirExists := true,
          kbTable := [] } ⟨PENDING_DIR, "doc.pdf"⟩ false).state
      ⟨PENDING_DIR, "doc.pdf"⟩ false).result = false ∧
     (process_document (fun _ => true)
      (process_document (fun _ => true)
        { cache := [], storage := none, pendingD := ["doc.pdf"],
          processedD := [], others := [], kbDirExists := true,
          kbTable := [] } ⟨PENDING_DIR, "doc.pdf"⟩ false).state
      ⟨PENDING_DIR, "doc.pdf"⟩ false).calls = 0) :=
  ⟨by decide,
   (process_document_idempotent (fun _ => true)
      { cache := [], storage := none, pendingD := ["doc.pdf"],
        processedD := [], others := [], kbDirExists := true,
        kbTable := [] } ⟨PENDING_DIR, "doc.pdf"⟩ (by decide)).1,
   (process_document_idempotent (fun _ => true)
      { cache := [], storage := none, pendingD := ["doc.pdf"],
        processedD := [], others := [], kbDirExists := true,
        kbTable := [] } ⟨PENDING_DIR, "doc.pdf"⟩ (by decide)).2.1⟩

/-- The C4 scenario pipeline: raises exactly on `f2.pdf`. -/
def c4Pipeline : DocPath → Bool := fun p => decide (p.name ≠ "f2.pdf")

/-- The C4 scenario state: three pending files, the first already
cached. -/
def c4State : SysState :=
  { cache := [pathStr ⟨PENDING_DIR, "f1.pdf"⟩],
    storage := some [pathStr ⟨PENDING_DIR, "f1.pdf"⟩],
    pendingD := ["f1.pdf", "f2.pdf", "f3.pdf"],
    processedD := [], others := [], kbDirExists := true, kbTable := [] }

/-- C4 (Batch counting): with 3 pending files of which 1 is cached and
the pipeline raises on one of the 2 new ones,
`process_pending_documents` reports `processed 1, skipped 1, failed 1`;
and in general a `False` result of `process_document` is counted as
skipped when the path string is in the cache after the call, else as
failed (and never as processed). -/
theorem process_pending_batch_counts :
    ((process_pending_documents c4Pipeline c4State false).processed = 1 ∧
     (process_pending_documents c4Pipeline c4State false).skipped = 1 ∧
     (process_pending_documents c4Pipeline c4State false).failed = 1) ∧
    (∀ (pipeline : DocPath → Bool) (force : Bool) (acc : BatchResult)
        (name : String),
      (process_document pipeline acc.state ⟨PENDING_DIR, name⟩ force).result =
        false →
      (processPendingStep pipeline force acc name).skipped =
        (if pathStr ⟨PENDING_DIR, name⟩ ∈
            (process_document pipeline acc.state ⟨PENDING_DIR, name⟩
              force).state.cache
         then acc.skipped + 1 else acc.skipped) ∧
      (processPendingStep pipeline force acc name).failed =
        (if pathStr ⟨PENDING_DIR, name⟩ ∈
            (process_document pipeline acc.state ⟨PENDING_DIR, name⟩
              force).state.cache
         then acc.failed else acc.failed + 1) ∧
      (processPendingStep pipeline force acc name).processed =
        acc.processed) := by
  constructor
  · refine ⟨by decide, by decide, by decide⟩
  · intro pipeline force acc name h
    by_cases hc : pathStr ⟨PENDING_DIR, name⟩ ∈
        (process_document pipeline acc.state ⟨PENDING_DIR, name⟩
          force).state.cache
    · simp [processPendingStep, h, hc]
    · simp [processPendingStep, h, hc]

/-- Witness for C4's general classification clause: the pipeline-raise
file of the scenario is counted as failed, not processed. -/
theorem process_pending_batch_counts_witness :
    (process_document c4Pipeline c4State ⟨PENDING_DIR, "f2.pdf"⟩
      false).result = false ∧
    (processPendingStep c4Pipeline false ⟨0, 0, 0, c4State, 0⟩
      "f2.pdf").processed = 0 :=
  ⟨by decide,
   (process_pending_batch_counts.2 c4Pipeline false ⟨0, 0, 0, c4State, 0⟩
     "f2.pdf" (by decide)).2.2⟩


theorem pyEndsWith_append (a b : String) : pyEndsWith (a ++ b) b = true := by
  simp [pyEndsWith, String.data_append]

theorem pyEndsWith_pathStr (d b : String) :
    pyEndsWith (pathStr ⟨d, b⟩) b = true := by
  show pyEndsWith (d ++ "/" ++ b) b = true
  simp only [pyEndsWith, String.data_append]
  exact List.isSuffixOf_iff_suffix.mpr ⟨d.data ++ ['/'], by simp⟩

/-- The explicit outcome of a faultless storage removal when the name
is present in the processed directory. -/
theorem remove_document_from_storage_eq (st : SysState) (doc_name : String)
    (hproc : doc_name ∈ st.processedD) :
    remove_document_from_storage false st doc_name =
    ⟨true,
     { st with
        cache := st.cache.filter
          (fun c => !(pyIn doc_name c || pyEndsWith c doc_name)),
        storage := some (st.cache.filter
          (fun c => !(pyIn doc_name c || pyEndsWith c doc_name))),
        processedD := st.processedD.filter (fun n => n ≠ doc_name),
        pendingD := setInsert st.pendingD doc_name },
     [FsOp.writeCacheFile,
      FsOp.rename ⟨PROCESSED_DIR, doc_name⟩ ⟨PENDING_DIR, doc_name⟩]⟩ := by
  rw [remove_document_from_storage]
  simp [saveCache, hproc]

/-- C7 (Removal reversibility): for a document name present in the
processed directory, `_remove_document_from_storage` (no fault) moves
the file back to pending, discards every cache identifier containing or
ending with the name, persists the cache, and a subsequent
`process_document` on the relocated pending path does not skip: the
path string is absent from the cache and the pipeline is invoked
(`calls = 1`). -/
theorem remove_document_reversible (st : SysState) (doc_name : String)
    (pipeline : DocPath → Bool) (hproc : doc_name ∈ st.processedD) :
    (remove_document_from_storage false st doc_name).result = true ∧
    (∀ id : String, (pyIn doc_name id || pyEndsWith id doc_name) = true →
      id ∉ (remove_document_from_storage false st doc_name).state.cache) ∧
    (remove_document_from_storage false st doc_name).state.storage =
      some (remove_document_from_storage false st doc_name).state.cache ∧
    doc_name ∈ (remove_document_from_storage false st doc_name).state.pendingD ∧
    doc_name ∉ (remove_document_from_storage false st doc_name).state.processedD ∧
    pathStr ⟨PENDING_DIR, doc_name⟩ ∉
      (remove_document_from_storage false st doc_name).state.cache ∧
    (process_document pipeline
      (remove_document_from_storage false st doc_name).state
      ⟨PENDING_DIR, doc_name⟩ false).calls = 1 := by
  rw [remove_document_from_storage_eq st doc_name hproc]
  have hnotc : ∀ id : String,
      (pyIn doc_name id || pyEndsWith id doc_name) = true →
      id ∉ st.cache.filter
        (fun c => !(pyIn doc_name c || pyEndsWith c doc_name)) := by
    intro id hid hmem
    rcases List.mem_filter.mp hmem with ⟨_, hkeep⟩
    rw [hid] at hkeep
    simp at hkeep
  have hpend : pathStr ⟨PENDING_DIR, doc_name⟩ ∉ st.cache.filter
      (fun c => !(pyIn doc_name c || pyEndsWith c doc_name)) := by
    refine hnotc _ ?_
    rw [pyEndsWith_pathStr]
    simp
  refine ⟨rfl, hnotc, rfl, mem_setInsert_self _ _, ?_, hpend, ?_⟩
  · intro hmem
    rcases List.mem_filter.mp hmem with ⟨_, hne⟩
    simp at hne
  · rw [process_document]
    rw [if_neg ?hex, if_neg ?hsk]
    case hsk =>
      simp only [Bool.not_false, Bool.true_and]
      simpa using hpend
    case hex =>
      have : decide (doc_name ∈ setInsert st.pendingD doc_name) = true :=
        decide_eq_true (mem_setInsert_self _ _)
      simp [fileExists, this]
    cases hp : pipeline ⟨PENDING_DIR, doc_name⟩
    · rw [if_pos rfl]
    · rw [if_neg (by simp)]
      simp [saveCache, mark_file_as_processed]

/-- The C7 witness state: one processed file whose pending-path
identifier is cached. -/
def c7State : SysState :=
  { cache := [pathStr ⟨PENDING_DIR, "b.pdf"⟩],
    storage := some [pathStr ⟨PENDING_DIR, "b.pdf"⟩],
    pendingD := [], processedD := ["b.pdf"], others := [],
    kbDirExists := true, kbTable := [] }

/-- Witness for C7 at a concrete state. -/
theorem remove_document_reversible_witness :
    "b.pdf" ∈ c7State.processedD ∧
    pathStr ⟨PENDING_DIR, "b.pdf"⟩ ∉
      (remove_document_from_storage false c7State "b.pdf").state.cache :=
  ⟨by decide,
   (remove_document_reversible c7State "b.pdf" (fun _ => true)
     (by decide)).2.2.2.2.2.1⟩

/-! ## Normalizer lemmas (for C2) -/

theorem jhas_jinsert_self (f : List (String × JVal)) (k : String) (v : JVal) :
    jhas (jinsert f k v) k = true := by
  unfold jinsert
  by_cases h : jhas f k
  · rw [if_pos h]
    unfold jhas at h ⊢
    rcases List.any_eq_true.mp h with ⟨p, hp, hk⟩
    refine List.any_eq_true.mpr ⟨(k, v), ?_, by simp⟩
    refine List.mem_map.mpr ⟨p, hp, ?_⟩
    simp at hk
    simp [hk]
  · rw [if_neg h]
    unfold jhas
    refine List.any_eq_true.mpr ⟨(k, v), by simp, by simp⟩

theorem jhas_jinsert_mono (f : List (String × JVal)) (k k' : String)
    (v : JVal) (h : jhas f k' = true) : jhas (jinsert f k v) k' = true := by
  unfold jinsert
  by_cases hk : jhas f k
  · rw [if_pos hk]
    unfold jhas at h ⊢
    rcases List.any_eq_true.mp h with ⟨p, hp, hpk⟩
    simp at hpk
    by_cases hpk2 : p.1 = k
    · refine List.any_eq_true.mpr
        ⟨(k, v), List.mem_map.mpr ⟨p, hp, by simp [hpk2]⟩, ?_⟩
      simp [← hpk, hpk2]
    · refine List.any_eq_true.mpr
        ⟨p, List.mem_map.mpr ⟨p, hp, by simp [hpk2]⟩, ?_⟩
      simp [hpk]
  · rw [if_neg hk]
    unfold jhas at h ⊢
    rcases List.any_eq_true.mp h with ⟨p, hp, hpk⟩
    exact List.any_eq_true.mpr ⟨p, List.mem_append_left _ hp, hpk⟩

theorem parseJMembers_jobj :
    ∀ (fuel : Nat) (cs : List Char) (acc : List (String × JVal))
      (v : JVal) (r : List Char),
      parseJMembers fuel cs acc = some (v, r) → ∃ g, v = JVal.jobj g := by
  intro fuel
  induction fuel with
  | zero =>
    intro cs acc v r h
    exact Option.noConfusion h
  | succ n ih =>
    intro cs acc v r h
    rw [parseJMembers] at h
    split at h
    · split at h
      · exact Option.noConfusion h
      · split at h
        · split at h
          · exact Option.noConfusion h
          · split at h
            · exact ih _ _ _ _ h
            · have h2 := Option.some.inj h
              exact ⟨_, (congrArg Prod.fst h2).symm⟩
            · exact Option.noConfusion h
        · exact Option.noConfusion h
    · exact Option.noConfusion h

theorem parseJObj_jobj (fuel : Nat) (cs : List Char) (v : JVal)
    (r : List Char) (h : parseJObj fuel cs = some (v, r)) :
    ∃ g, v = JVal.jobj g := by
  cases fuel with
  | zero => exact Option.noConfusion h
  | succ n =>
    rw [parseJObj] at h
    split at h
    · have h2 := Option.some.inj h
      exact ⟨_, (congrArg Prod.fst h2).symm⟩
    · exact parseJMembers_jobj _ _ _ _ _ h

theorem parseJVal_brace (fuel : Nat) (t : List Char) (q : JVal × List Char)
    (h : parseJVal (fuel + 1) ('{' :: t) = some q) :
    ∃ g, q.1 = JVal.jobj g := by
  rw [parseJVal] at h
  simp only [List.dropWhile_cons, jsonWs] at h
  simp only [show (('{' = ' ' || '{' = '\t' || '{' = '\n' ||
    '{' = '\x0d') : Bool) = false by decide] at h
  simp only [Bool.false_eq_true, if_false] at h
  rw [if_neg (by decide), if_pos trivial] at h
  cases q with
  | mk a b => exact parseJObj_jobj _ _ _ _ h

theorem jsonLoads_jobj (s : String) (t : List Char) (hs : s.data = '{' :: t)
    (v : JVal) (h : jsonLoads s = some v) : ∃ g, v = JVal.jobj g := by
  rw [jsonLoads] at h
  cases hp : parseJVal (s.data.length + 1) s.data with
  | none => rw [hp] at h; exact Option.noConfusion h
  | some q =>
    rw [hp] at h
    rcases q with ⟨a, b⟩
    have h' : (if (b.dropWhile jsonWs).isEmpty = true then some a else none) =
        some v := h
    have hv : a = v := by
      by_cases he : (b.dropWhile jsonWs).isEmpty = true
      · rw [if_pos he] at h'; exact Option.some.inj h'
      · rw [if_neg he] at h'; exact Option.noConfusion h'
    rw [hs] at hp
    rcases parseJVal_brace _ _ _ hp with ⟨g, hg⟩
    exact ⟨g, hv ▸ hg⟩

theorem braceMatchAt_brace (cs : List Char) (p : String × List Char)
    (h : braceMatchAt cs = some p) : ∃ t, p.1.data = '{' :: t := by
  unfold braceMatchAt at h
  split at h
  · rename_i rest
    cases hb : braceBody (rest.length + 1) rest with
    | none => rw [hb] at h; exact Option.noConfusion h
    | some q =>
      rw [hb] at h
      have h2 : (⟨String.mk ('{' :: q.1), q.2⟩ : String × List Char) = p :=
        Option.some.inj h
      exact ⟨q.1, by rw [← h2]⟩
  · exact Option.noConfusion h

theorem findallBraces_brace :
    ∀ (fuel : Nat) (cs : List Char) (m : String),
      m ∈ findallBraces fuel cs → ∃ t, m.data = '{' :: t := by
  intro fuel
  induction fuel with
  | zero => intro cs m h; exact absurd h (List.not_mem_nil m)
  | succ n ih =>
    intro cs m h
    cases cs with
    | nil => exact absurd h (List.not_mem_nil m)
    | cons c rest =>
      rw [findallBraces] at h
      cases hb : braceMatchAt (c :: rest) with
      | none => rw [hb] at h; exact ih _ _ h
      | some p =>
        rw [hb] at h
        rcases List.mem_cons.mp h with rfl | h2
        · exact braceMatchAt_brace _ _ hb
        · exact ih _ _ h2

theorem firstValidJson_jobj (response : String) :
    ∀ (cands : List String) (v : JVal) (e : String),
      (∀ c ∈ cands, ∃ t, c.data = '{' :: t) →
      firstValidJson response cands = some (v, e) →
      ∃ g, v = JVal.jobj g := by
  intro cands
  induction cands with
  | nil => intro v e _ h; exact Option.noConfusion h
  | cons c cs ih =>
    intro v e hall h
    rw [firstValidJson] at h
    cases hl : jsonLoads c with
    | none =>
      rw [hl] at h
      exact ih _ _ (fun d hd => hall d (List.mem_cons_of_mem _ hd)) h
    | some w =>
      rw [hl] at h
      have h2 : (⟨w, pyStrip (pyDrop response ((pyFind response c).getD 0 +
          pyLenStr c))⟩ : JVal × String) = (v, e) := Option.some.inj h
      injection h2 with hw he
      rcases hall c (List.mem_cons_self _ _) with ⟨t, ht⟩
      rcases jsonLoads_jobj c t ht w hl with ⟨g, hg⟩
      exact ⟨g, by rw [← hw, hg]⟩

theorem step4_jobj (f : List (String × JVal)) (e : String) :
    ∃ g, step4 (JVal.jobj f) e = JVal.jobj g := by
  unfold step4
  by_cases he : e ≠ ""
  · rw [if_pos he]
    show ∃ g, (if jhas f "additional_notes" = true then JVal.jobj f
        else JVal.jobj (jinsert f "additional_notes"
          (JVal.jstr (pyTake e 200)))) = JVal.jobj g
    by_cases hn : jhas f "additional_notes"
    · exact ⟨f, by rw [if_pos hn]⟩
    · exact ⟨_, by rw [if_neg hn]⟩
  · exact ⟨f, by rw [if_neg he]⟩

theorem step5_keys (o : String) (f : List (String × JVal)) :
    step5 o (JVal.jobj f) =
      JVal.jobj (ensureEntities (ensureDescription o f)) ∧
    jhas (ensureEntities (ensureDescription o f)) "description" = true ∧
    jhas (ensureEntities (ensureDescription o f)) "entities" = true := by
  have hd1 : jhas (ensureDescription o f) "description" = true := by
    unfold ensureDescription
    by_cases h : jhas f "description"
    · rw [if_pos h]; exact h
    · rw [if_neg h]; exact jhas_jinsert_self _ _ _
  refine ⟨rfl, ?_, ?_⟩
  · unfold ensureEntities
    by_cases h : jhas (ensureDescription o f) "entities"
    · rw [if_pos h]; exact hd1
    · rw [if_neg h]; exact jhas_jinsert_mono _ _ _ _ hd1
  · unfold ensureEntities
    by_cases h : jhas (ensureDescription o f) "entities"
    · rw [if_pos h]; exact h
    · rw [if_neg h]; exact jhas_jinsert_self _ _ _

theorem errorRecord_keys (r m : String) :
    ∃ g, errorRecord r m = JVal.jobj g ∧
      jhas g "description" = true ∧ jhas g "entities" = true := by
  refine ⟨_, rfl, ?_, ?_⟩ <;> simp [jhas]

theorem finalCheck_keys (r : String) (f : List (String × JVal))
    (hd : jhas f "description" = true) (he : jhas f "entities" = true) :
    ∃ g, finalCheck r (JVal.jobj f) = JVal.jobj g ∧
      jhas g "description" = true ∧ jhas g "entities" = true := by
  unfold finalCheck
  cases hl : pyLenOf ((jget f "entities").getD (JVal.jarr [])) with
  | some n => exact ⟨f, by simp only [hl], hd, he⟩
  | none =>
    simp only [hl]
    exact errorRecord_keys _ _

/-- C2 as amended (Normalizer total coverage): for every input string
the Content Normalizer returns a record that is a JSON object carrying
both a `description` key and an `entities` key, and the operation is
total (every exception inside the source's `try` lands in the handler,
which itself returns such a record) — however the `description` value
is not always a non-empty string (see the counterexample). -/
theorem robust_llm_func_total (s : String) :
    ∃ f, robust_llm_func s = JVal.jobj f ∧
      jhas f "description" = true ∧ jhas f "entities" = true := by
  simp only [robust_llm_func]
  cases hpr : firstValidJson (normResponse (pyStrip s))
      (findallBraces (normResponse (pyStrip s)).data.length
        (normResponse (pyStrip s)).data) with
  | none =>
    simp only [normSteps]
    have h4 : step4 (fallbackRecord (pyStrip s)) "" =
        fallbackRecord (pyStrip s) := by
      simp [step4]
    rw [h4, fallbackRecord]
    rcases step5_keys (pyStrip s) _ with ⟨hg, hd, he⟩
    rw [hg]
    exact finalCheck_keys _ _ hd he
  | some p =>
    rcases firstValidJson_jobj (normResponse (pyStrip s)) _ p.1 p.2
        (fun c hc => findallBraces_brace _ _ _ hc)
        (by rw [hpr]) with ⟨g0, hg0⟩
    simp only [normSteps, hg0]
    rcases step4_jobj g0 p.2 with ⟨g1, hg1⟩
    rw [hg1]
    rcases step5_keys (pyStrip s) g1 with ⟨hg2, hd, he⟩
    rw [hg2]
    exact finalCheck_keys _ _ hd he

/-- Counterexample to C2 as stated: on the empty input string the
normalizer's fallback path sets `description` to the first 500
characters of the (empty) raw text, so the returned record's
`description` is the empty string — not a non-empty one. -/
theorem robust_llm_func_empty_description :
    robust_llm_func "" =
      JVal.jobj [("description", JVal.jstr ""),
        ("entities", JVal.jarr []),
        ("analysis", JVal.jstr "Content processed with partial extraction"),
        ("original_length", JVal.jnum "0")] := by
  rfl

/-- C3 (Registry union correctness): on cache `a.pdf` / processed
directory `b.pdf` / knowledge-base reference `c.pdf`, the detailed
listing returns exactly those three names with exactly one provenance
flag set each; in general the listed names are the union of the three
per-source name sets (filtered of empty, single-character and
dot-leading names) and each flag equals membership in its own source,
computed independently. -/
theorem registry_union_correct :
    (get_detailed_documents_info ["a.pdf"]
        [("b.pdf", some ("12.0 KB", "2024-01-01 00:00"))]
        [("d1", JVal.jobj [("file_path", JVal.jstr "c.pdf")])] =
      [("a.pdf", ⟨true, false, false, none, none⟩),
       ("b.pdf", ⟨false, true, false, some "12.0 KB",
         some "2024-01-01 00:00"⟩),
       ("c.pdf", ⟨false, false, true, none, none⟩)]) ∧
    (∀ (cache : List String)
        (entries : List (String × Option (String × String)))
        (kb : List (String × JVal)) (name : String),
      (name ∈ (get_detailed_documents_info cache entries kb).map Prod.fst ↔
        ((name ∈ cacheDocsOf cache ∨
          name ∈ (processedDocsOf entries).map Prod.fst ∨
          name ∈ kbDocs kb) ∧
         name ≠ "" ∧ 1 < pyLenStr name ∧ ¬ pyStartsWith name ".")) ∧
      (∀ info : DocInfo,
        (name, info) ∈ get_detailed_documents_info cache entries kb →
        info.in_cache = decide (name ∈ cacheDocsOf cache) ∧
        info.in_processed_dir =
          decide (name ∈ (processedDocsOf entries).map Prod.fst) ∧
        info.in_knowledge_base = decide (name ∈ kbDocs kb))) := by
  constructor
  · decide
  · intro cache entries kb name
    constructor
    · simp only [get_detailed_documents_info, List.map_map, List.mem_map,
        Function.comp, List.mem_filter, mem_pySetList, List.mem_append,
        decide_eq_true_eq]
      constructor
      · rintro ⟨a, ⟨ha, hp⟩, rfl⟩
        exact ⟨or_assoc.mp ha, hp⟩
      · rintro ⟨ha, hp⟩
        exact ⟨name, ⟨or_assoc.mpr ha, hp⟩, rfl⟩
    · intro info hmem
      rcases List.mem_map.mp hmem with ⟨n, hn, heq⟩
      injection heq with h1 h2
      subst h1
      subst h2
      exact ⟨rfl, rfl, rfl⟩

/-- Witness for C3's per-name clause at the scenario's `a.pdf`. -/
theorem registry_union_correct_witness :
    (("a.pdf", (⟨true, false, false, none, none⟩ : DocInfo)) ∈
      get_detailed_documents_info ["a.pdf"]
        [("b.pdf", some ("12.0 KB", "2024-01-01 00:00"))]
        [("d1", JVal.jobj [("file_path", JVal.jstr "c.pdf")])]) ∧
    (⟨true, false, false, none, none⟩ : DocInfo).in_cache =
      decide ("a.pdf" ∈ cacheDocsOf ["a.pdf"]) :=
  ⟨by decide,
   ((registry_union_correct.2 ["a.pdf"]
      [("b.pdf", some ("12.0 KB", "2024-01-01 00:00"))]
      [("d1", JVal.jobj [("file_path", JVal.jstr "c.pdf")])] "a.pdf").2
     ⟨true, false, false, none, none⟩ (by decide)).1⟩

theorem mem_insertSorted (x y : String) (l : List String) :
    y ∈ insertSorted x l ↔ y = x ∨ y ∈ l := by
  induction l with
  | nil => simp [insertSorted]
  | cons z zs ih =>
    rw [insertSorted]
    by_cases h : strLeChars x.data z.data
    · simp [h]
    · simp only [h, Bool.false_eq_true, if_false, List.mem_cons, ih]
      tauto

theorem mem_sortStrings (l : List String) (x : String) :
    x ∈ sortStrings l ↔ x ∈ l := by
  induction l with
  | nil => simp [sortStrings]
  | cons y ys ih =>
    show x ∈ insertSorted y (sortStrings ys) ↔ _
    rw [mem_insertSorted]
    simp [ih]

theorem listFindSub_take (sep : Char) :
    ∀ (rs : List Char) (k : Nat), listFindSub [sep] rs = some k →
      sep ∉ rs.take k := by
  intro rs
  induction rs with
  | nil =>
    intro k h
    simp [listFindSub] at h
  | cons r tl ih =>
    intro k h
    rw [listFindSub] at h
    by_cases hr : ([sep] : List Char).isPrefixOf (r :: tl)
    · rw [if_pos hr] at h
      have hk := Option.some.inj h
      subst hk
      simp
    · rw [if_neg hr] at h
      cases hq : listFindSub [sep] tl with
      | none => rw [hq] at h; exact Option.noConfusion h
      | some k' =>
        rw [hq] at h
        have hk : k' + 1 = k := Option.some.inj h
        subst hk
        rw [List.take_succ_cons]
        intro hmem
        rcases List.mem_cons.mp hmem with rfl | hmem2
        · exact hr (by simp [List.isPrefixOf])
        · exact ih _ hq hmem2

theorem listFindSub_none (sep : Char) :
    ∀ rs : List Char, listFindSub [sep] rs = none → sep ∉ rs := by
  intro rs
  induction rs with
  | nil => intro _ h; exact List.not_mem_nil sep h
  | cons r tl ih =>
    intro h hmem
    rw [listFindSub] at h
    by_cases hr : ([sep] : List Char).isPrefixOf (r :: tl)
    · rw [if_pos hr] at h; exact Option.noConfusion h
    · rw [if_neg hr] at h
      cases hq : listFindSub [sep] tl with
      | some k => rw [hq] at h; exact Option.noConfusion h
      | none =>
        rcases List.mem_cons.mp hmem with rfl | hmem2
        · exact hr (by simp [List.isPrefixOf])
        · exact ih hq hmem2

/-- The final split component contains no separator. -/
theorem pyLastSplit_no_sep (s : String) (sep : Char) :
    sep ∉ (pyLastSplit s sep).data := by
  rw [pyLastSplit]
  cases hq : listFindSub [sep] s.data.reverse with
  | none =>
    intro hmem
    exact listFindSub_none sep _ hq (List.mem_reverse.mpr hmem)
  | some k =>
    intro hmem
    exact listFindSub_take sep _ _ hq (List.mem_reverse.mp hmem)

/-- The final split component only uses characters of the input. -/
theorem pyLastSplit_sub (s : String) (sep : Char) :
    ∀ c ∈ (pyLastSplit s sep).data, c ∈ s.data := by
  rw [pyLastSplit]
  cases hq : listFindSub [sep] s.data.reverse with
  | none => exact fun c hc => hc
  | some k =>
    intro c hc
    have h1 : c ∈ s.data.reverse.take k := List.mem_reverse.mp hc
    exact List.mem_reverse.mp (List.mem_of_mem_take h1)

/-- Replacement removes every occurrence of the old character. -/
theorem pyReplaceChar_no_old (s : String) (old new : Char) (hne : new ≠ old) :
    old ∉ (pyReplaceChar s old new).data := by
  rw [pyReplaceChar]
  intro hmem
  rcases List.mem_map.mp hmem with ⟨c, _, hc⟩
  by_cases h : c = old
  · rw [if_pos h] at hc; exact hne hc
  · rw [if_neg h] at hc; exact h hc

/-- Counterexample to C6 as stated: in the detailed registry listing
the knowledge-base file-path value with Windows-style backslash
separators is NOT stripped to `report.pdf` — only `os.path.basename`
(POSIX: forward slashes) is applied there, so the backslashed string
survives whole as the listed name. -/
theorem kb_windows_path_not_stripped :
    (get_detailed_documents_info [] []
        [("d1", JVal.jobj [("file_path", JVal.jstr "C:\\x\\y\\report.pdf")])]).map
      Prod.fst = ["C:\\x\\y\\report.pdf"] ∧
    "report.pdf" ∉ (get_detailed_documents_info [] []
        [("d1", JVal.jobj [("file_path", JVal.jstr "C:\\x\\y\\report.pdf")])]).map
      Prod.fst := by
  refine ⟨by decide, by decide⟩

/-- C6 as amended: in the detailed registry listing only forward-slash
separators are stripped (`/x/y/report.PDF` lists as `report.PDF`, case
preserved); backslash separators are stripped to the final path
component only in the registry's secondary name-list projection
(`_get_processed_documents_list`), whose cleanup replaces backslashes
with slashes before taking the final component, so both example paths
normalize there — and every name that projection returns is free of
both separator kinds. -/
theorem name_normalization_amended :
    ((get_detailed_documents_info [] []
        [("d1", JVal.jobj [("file_path", JVal.jstr "/x/y/report.PDF")])]).map
      Prod.fst = ["report.PDF"]) ∧
    (get_processed_documents_list [] []
        [("d1", JVal.jobj [("file_path", JVal.jstr "C:\\x\\y\\report.pdf")])] =
      ["report.pdf"]) ∧
    (get_processed_documents_list [] []
        [("d1", JVal.jobj [("file_path", JVal.jstr "/x/y/report.PDF")])] =
      ["report.PDF"]) ∧
    (∀ (cache processedD : List String) (kb : List (String × JVal))
        (name : String),
      name ∈ get_processed_documents_list cache processedD kb →
      '/' ∉ name.data ∧ '\\' ∉ name.data) := by
  refine ⟨by decide, by decide, by decide, ?_⟩
  intro cache pd kb name h
  simp only [get_processed_documents_list] at h
  rw [mem_sortStrings, mem_pySetList] at h
  rcases List.mem_filter.mp h with ⟨h1, _⟩
  rcases List.mem_map.mp h1 with ⟨d, _, hd⟩
  subst hd
  refine ⟨pyLastSplit_no_sep _ _, fun hb => ?_⟩
  exact pyReplaceChar_no_old d '\\' '/' (by decide) (pyLastSplit_sub _ _ _ hb)

/-- Witness for C6's separator-free clause. -/
theorem name_normalization_amended_witness :
    ("report.pdf" ∈ get_processed_documents_list [] []
        [("d1", JVal.jobj [("file_path", JVal.jstr "C:\\x\\y\\report.pdf")])]) ∧
    '/' ∉ ("report.pdf" : String).data :=
  ⟨by decide,
   (name_normalization_amended.2.2.2 [] []
     [("d1", JVal.jobj [("file_path", JVal.jstr "C:\\x\\y\\report.pdf")])]
     "report.pdf" (by decide)).1⟩

/-- The C8 state: knowledge-base directory present, cache file present,
one processed file. -/
def c8State : SysState :=
  { cache := [pathStr ⟨PENDING_DIR, "b.pdf"⟩],
    storage := some [pathStr ⟨PENDING_DIR, "b.pdf"⟩],
    pendingD := [], processedD := ["b.pdf"], others := [],
    kbDirExists := true,
    kbTable := [("d1", JVal.jobj [("file_path", JVal.jstr "b.pdf")])] }

/-- Counterexample to C8 as stated: when the knowledge-base `rmtree`
raises, the remaining cleanup steps are NOT executed — the cache file
is still present, the processed file is not relocated, and no
filesystem operation happened at all (one `try` wraps all steps). -/
theorem clear_storage_not_best_effort :
    (clear_storage_directories true false c8State).1.storage =
      some [pathStr ⟨PENDING_DIR, "b.pdf"⟩] ∧
    (clear_storage_directories true false c8State).1.processedD = ["b.pdf"] ∧
    (clear_storage_directories true false c8State).1.pendingD = [] ∧
    (clear_storage_directories true false c8State).2 = [] :=
  ⟨rfl, rfl, rfl, rfl⟩

/-- C8 as amended: a failing cleanup step is caught and logged (the
operation itself never raises, being a total function of the fault
flags), but the steps are sequenced inside a single guard, so a failure
skips every remaining step; only a fault-free run clears the cache
file, empties the processed directory, and (when the knowledge-base
directory exists) clears the knowledge-base table. -/
theorem clear_storage_amended :
    (∀ st : SysState,
      (clear_storage_directories false false st).1.storage = none ∧
      (clear_storage_directories false false st).1.processedD = [] ∧
      (st.kbDirExists = true →
        (clear_storage_directories false false st).1.kbTable = [])) ∧
    (∀ (st : SysState) (u : Bool), st.kbDirExists = true →
      clear_storage_directories true u st = (st, [])) := by
  constructor
  · intro st
    cases hkb : st.kbDirExists
    · by_cases hs : st.storage = none
      · simp [clear_storage_directories, hkb, hs]
      · simp [clear_storage_directories, hkb, hs]
    · by_cases hs : st.storage = none
      · simp [clear_storage_directories, hkb, hs]
      · simp [clear_storage_directories, hkb, hs]
  · intro st u hkb
    simp [clear_storage_directories, hkb]

/-- Witness for C8's amended fault clause. -/
theorem clear_storage_amended_witness :
    c8State.kbDirExists = true ∧
    clear_storage_directories true false c8State = (c8State, []) :=
  ⟨rfl, clear_storage_amended.2 c8State false rfl⟩

/-- Is this filesystem operation a rename? -/
def isRenameOp : FsOp → Bool
  | FsOp.rename _ _ => true
  | _ => false

/-- Does this operation mutate membership of the pending or processed
directory? -/
def touchesDocDirs : FsOp → Bool
  | FsOp.rename s d =>
    decide (s.dir = PENDING_DIR) || decide (s.dir = PROCESSED_DIR) ||
    decide (d.dir = PENDING_DIR) || decide (d.dir = PROCESSED_DIR)
  | FsOp.writeBytes d =>
    decide (d.dir = PENDING_DIR) || decide (d.dir = PROCESSED_DIR)
  | FsOp.unlink p =>
    decide (p.dir = PENDING_DIR) || decide (p.dir = PROCESSED_DIR)
  | _ => false

theorem mark_trace_rename (st : SysState) (p : DocPath) :
    ∀ op ∈ (mark_file_as_processed st p).2, isRenameOp op = true := by
  unfold mark_file_as_processed
  by_cases h : (fileExists st p && decide (p.dir = PENDING_DIR)) = true
  · rw [if_pos h]
    intro op hop
    rcases List.mem_cons.mp hop with rfl | hop2
    · rfl
    · exact absurd hop2 (List.not_mem_nil _)
  · rw [if_neg h]
    intro op hop
    exact absurd hop (List.not_mem_nil _)

theorem process_document_trace_sub (pipeline : DocPath → Bool)
    (st : SysState) (p : DocPath) (force : Bool) :
    ∀ op ∈ (process_document pipeline st p force).trace,
      op = FsOp.writeCacheFile ∨ isRenameOp op = true := by
  intro op hop
  unfold process_document at hop
  split at hop
  · exact absurd hop (List.not_mem_nil _)
  · split at hop
    · exact absurd hop (List.not_mem_nil _)
    · split at hop
      · exact absurd hop (List.not_mem_nil _)
      · split at hop
        · rcases List.mem_append.mp hop with h1 | h2
          · rcases List.mem_cons.mp h1 with rfl | h0
            · exact Or.inl rfl
            · exact absurd h0 (List.not_mem_nil _)
          · exact Or.inr (mark_trace_rename _ _ _ h2)
        · rcases List.mem_cons.mp hop with rfl | h0
          · exact Or.inl rfl
          · exact absurd h0 (List.not_mem_nil _)

theorem remove_trace_sub (fault : Bool) (st : SysState) (name : String) :
    ∀ op ∈ (remove_document_from_storage fault st name).trace,
      op = FsOp.writeCacheFile ∨ isRenameOp op = true := by
  intro op hop
  unfold remove_document_from_storage at hop
  split at hop
  all_goals simp only [saveCache, List.cons_append, List.nil_append] at hop
  all_goals try split at hop
  all_goals simp only [List.mem_cons, List.not_mem_nil, or_false] at hop
  all_goals
    first
      | (rcases hop with rfl | rfl
         · exact Or.inl rfl
         · exact Or.inr rfl)
      | exact Or.inl hop

/-- The C9 counterexample state: one processed file, nothing else. -/
def c9State : SysState :=
  { cache := [], storage := none, pendingD := [], processedD := ["b.pdf"],
    others := [], kbDirExists := false, kbTable := [] }

/-- C9 as amended: the processing-time move and the removal-time
reverse move mutate the two document directories only via rename; but
the full-reset restoration of `_clear_storage_directories` moves each
processed file by writing its bytes to pending and unlinking the
original — copy-then-delete, refuting the claim that every move is a
rename. -/
theorem doc_dir_moves_amended :
    (∀ (pipeline : DocPath → Bool) (st : SysState) (p : DocPath)
        (force : Bool),
      ∀ op ∈ (process_document pipeline st p force).trace,
        touchesDocDirs op = true → isRenameOp op = true) ∧
    (∀ (fault : Bool) (st : SysState) (name : String),
      ∀ op ∈ (remove_document_from_storage fault st name).trace,
        touchesDocDirs op = true → isRenameOp op = true) ∧
    (FsOp.writeBytes ⟨PENDING_DIR, "b.pdf"⟩ ∈
       (clear_storage_directories false false c9State).2 ∧
     touchesDocDirs (FsOp.writeBytes ⟨PENDING_DIR, "b.pdf"⟩) = true ∧
     isRenameOp (FsOp.writeBytes ⟨PENDING_DIR, "b.pdf"⟩) = false) := by
  refine ⟨?_, ?_, by decide, rfl, rfl⟩
  · intro pipeline st p force op hop htouch
    rcases process_document_trace_sub pipeline st p force op hop with rfl | h
    · exact absurd htouch (by decide)
    · exact h
  · intro fault st name op hop htouch
    rcases remove_trace_sub fault st name op hop with rfl | h
    · exact absurd htouch (by decide)
    · exact h

/-- Counterexample to C9 as stated: the full-reset restoration's trace
on a state with one processed file is exactly a byte-copy to pending
followed by an unlink of the processed original — no rename. -/
theorem clear_storage_copy_delete :
    (clear_storage_directories false false c9State).2 =
      [FsOp.writeBytes ⟨PENDING_DIR, "b.pdf"⟩,
       FsOp.unlink ⟨PROCESSED_DIR, "b.pdf"⟩] := rfl

/-- The C9 witness state: one pending file to process. -/
def c9WitState : SysState :=
  { cache := [], storage := none, pendingD := ["doc.pdf"], processedD := [],
    others := [], kbDirExists := true, kbTable := [] }

/-- Witness for C9's rename-only clauses at a concrete processing
move. -/
theorem doc_dir_moves_amended_witness :
    (FsOp.rename ⟨PENDING_DIR, "doc.pdf"⟩ ⟨PROCESSED_DIR, "doc.pdf"⟩ ∈
      (process_document (fun _ => true) c9WitState
        ⟨PENDING_DIR, "doc.pdf"⟩ false).trace) ∧
    isRenameOp (FsOp.rename ⟨PENDING_DIR, "doc.pdf"⟩
      ⟨PROCESSED_DIR, "doc.pdf"⟩) = true :=
  ⟨by decide,
   doc_dir_moves_amended.1 (fun _ => true) c9WitState
     ⟨PENDING_DIR, "doc.pdf"⟩ false
     (FsOp.rename ⟨PENDING_DIR, "doc.pdf"⟩ ⟨PROCESSED_DIR, "doc.pdf"⟩)
     (by decide) (by decide)⟩

/-- C10 (removal returns true on any resolved match): whenever the
case-insensitive substring match resolves at least one name and the
disambiguation choice selects something (single match, `all`, or a
valid index), `remove_document` returns `True` — for every per-name
fault assignment, i.e. even when every per-name storage removal fails. -/
theorem remove_document_true_on_match (renameFault : String → Bool)
    (st : SysState) (ident : String) (choice : UserChoice)
    (hne : (get_processed_documents_list st.cache st.processedD
        st.kbTable).filter (fun d => pyIn (pyLower ident) (pyLower d)) ≠ [])
    (hsel : ((get_processed_documents_list st.cache st.processedD
          st.kbTable).filter
          (fun d => pyIn (pyLower ident) (pyLower d))).length ≤ 1 ∨
      choice = UserChoice.all ∨
      (∃ (n : Int) (d : String), choice = UserChoice.num n ∧
        pyIndex ((get_processed_documents_list st.cache st.processedD
            st.kbTable).filter
          (fun d => pyIn (pyLower ident) (pyLower d))) (n - 1) = some d)) :
    (remove_document renameFault st ident choice).1 = true := by
  simp only [remove_document]
  set ml := (get_processed_documents_list st.cache st.processedD
      st.kbTable).filter (fun d => pyIn (pyLower ident) (pyLower d)) with hml
  have hie : ml.isEmpty = false := by
    cases hm : ml with
    | nil => exact absurd hm hne
    | cons a l => rfl
  rw [hie]
  rw [if_neg (by simp)]
  by_cases hlen : 1 < ml.length
  · rw [if_pos hlen]
    cases choice with
    | all => rfl
    | invalid =>
      rcases hsel with h1 | h2 | ⟨n, d, hc, _⟩
      · omega
      · exact UserChoice.noConfusion h2
      · exact UserChoice.noConfusion hc
    | num n =>
      rcases hsel with h1 | h2 | ⟨n', d, hc, hidx⟩
      · omega
      · exact UserChoice.noConfusion h2
      · have hn : n' = n := by
          injection hc with h
          exact h.symm
        subst hn
        simp only [hidx]
  · rw [if_neg hlen]

/-- The C10 witness state: one processed document. -/
def c10State : SysState :=
  { cache := [], storage := none, pendingD := [], processedD := ["b.pdf"],
    others := [], kbDirExists := false, kbTable := [] }

/-- Witness for C10: a single match, an invalid choice (irrelevant for
a single match), and a fault making every per-name removal fail — the
call still returns `True`. -/
theorem remove_document_true_on_match_witness :
    (remove_document (fun _ => true) c10State "b" UserChoice.invalid).1 =
      true :=
  remove_document_true_on_match (fun _ => true) c10State "b"
    UserChoice.invalid (by decide) (Or.inl (by decide))
